import Mathlib

/-!
Shallow embedding of the concurrency-coordination core of the chromedp
extension package (src/wait.go, src/nav.go, src/unnamed/part_000).

Modelling conventions:
* A Go `error` value is `Option GoError`, with `none` standing for `nil`.
* A Go action (`Action.Do(ctx)`) invoked repeatedly by a loop is modelled by
  the sequence of its outcomes, a function `Nat → Option GoError` giving the
  outcome of the i-th invocation (0-based).
* A Go `context` as observed by a loop is modelled by a cancellation trace
  `cancelled : Nat → Bool` (whether the scope is already cancelled when
  iteration i begins) together with the error `cerr` that `ctx.Err()` yields.
* Timer-based loops are modelled as fuel-indexed recursions: the fuel bounds
  the number of iterations examined; `none` means the loop did not terminate
  within the given fuel.
* Go pointers used as out-slots are `Option α`: `none` is the nil pointer,
  `some v` a pointer whose pointee currently holds `v`.
* A Go `panic` during construction is the `.panicked` constructor of
  `Constructed`.
-/

/-- Go `error` values that occur in the embedded code: the two sentinel
errors declared by the package, the two context errors, and arbitrary other
domain errors. -/
inductive GoError where
  | errContinueWait
  | errNotMatch
  | ctxCanceled
  | ctxDeadlineExceeded
  | other (n : Nat)
deriving DecidableEq, Repr

/-- `ctx.Err()` of a Go context only ever yields `context.Canceled` or
`context.DeadlineExceeded`. -/
def GoError.isCtxErr : GoError → Bool
  | .ctxCanceled => true
  | .ctxDeadlineExceeded => true
  | _ => false

/-- Result of a construction-time call that may `panic`. -/
inductive Constructed (α : Type) where
  | panicked (msg : String)
  | built (a : α)

/-- Whether a construction panicked. -/
def Constructed.isPanic : Constructed α → Bool
  | .panicked _ => true
  | .built _ => false

/-- The tick of the `WaitUntil` retry loop: `time.NewTimer(50 * time.Millisecond)`
in src/wait.go. -/
def waitUntilTickMillis : Nat := 50

/-- The body of the action returned by `WaitUntil` (src/wait.go).

Each iteration first waits for one 50ms tick in a `select` against
`ctx.Done()`: if the scope is already cancelled when the iteration begins,
`ctx.Done()` is ready immediately and the loop returns `ctx.Err()` without
invoking the predicate.  Otherwise the tick fires and the predicate `f` is
invoked; on `ErrContinueWait` the loop continues, on any other result that
result is returned.

Arguments: `cancelled i` is whether the scope is cancelled at the start of
iteration `i`; `cerr` is `ctx.Err()`; `f i` the outcome of the i-th predicate
invocation; `fuel` bounds the iterations; `i` the current iteration index,
which also counts the predicate invocations made so far.  Returns
`some (returned error, total number of predicate invocations)`, or `none`
when the fuel is exhausted. -/
def waitUntilGo (cancelled : Nat → Bool) (cerr : GoError)
    (f : Nat → Option GoError) : Nat → Nat → Option (Option GoError × Nat)
  | 0, _ => none
  | fuel + 1, i =>
    if cancelled i then
      some (some cerr, i)
    else
      let e := f i
      if e = some .errContinueWait then
        waitUntilGo cancelled cerr f fuel (i + 1)
      else
        some (e, i + 1)

/-- `WaitUntil f` run from the start of the loop. -/
def WaitUntil (cancelled : Nat → Bool) (cerr : GoError)
    (f : Nat → Option GoError) (fuel : Nat) : Option (Option GoError × Nat) :=
  waitUntilGo cancelled cerr f fuel 0

/-- The body of the action returned by `IntervalRun` (src/wait.go).

One timer of duration `interval` is armed before the loop; each iteration
`select`s between `ctx.Done()` and the timer.  On cancellation the loop
returns `ctx.Err()`; on a tick the action is invoked, any failure is returned
at once, and success re-arms the timer.  `action i` is the outcome of the
i-th invocation; the returned pair is (returned error, number of
invocations). -/
def intervalRunGo (interval : Nat) (cancelled : Nat → Bool) (cerr : GoError)
    (action : Nat → Option GoError) : Nat → Nat → Option (Option GoError × Nat)
  | 0, _ => none
  | fuel + 1, i =>
    if cancelled i then
      some (some cerr, i)
    else
      match action i with
      | some e => some (some e, i + 1)
      | none => intervalRunGo interval cancelled cerr action fuel (i + 1)

/-- `IntervalRun interval action` run from the start of the loop. -/
def IntervalRun (interval : Nat) (cancelled : Nat → Bool) (cerr : GoError)
    (action : Nat → Option GoError) (fuel : Nat) : Option (Option GoError × Nat) :=
  intervalRunGo interval cancelled cerr action fuel 0

example : WaitUntil (fun _ => false) .ctxCanceled
    (fun i => if i < 2 then some .errContinueWait else none) 3 = some (none, 3) := by
  decide

example : IntervalRun 7 (fun _ => false) .ctxCanceled
    (fun i => if i < 2 then none else some (.other 5)) 3 = some (some (.other 5), 3) := by
  decide

/-! ## src/nav.go: navigation options and the event-predicate waiter -/

/-- Events delivered by the target's event stream.  The wait predicates in
src/nav.go only distinguish `*page.EventLoadEventFired` and
`*page.EventFrameNavigated` from everything else. -/
inductive Event where
  | loadEventFired
  | frameNavigated
  | otherEvent (n : Nat)
deriving DecidableEq, Repr

/-- `navOptions` (src/nav.go): the wait function is a nilable function value;
`none` models a nil `wait` field.  The predicate ignores its ctx argument, so
it is modelled as a function of the event alone. -/
structure NavOptions where
  wait : Option (Event → Option GoError)

/-- A `NavigateOption` is `func(*navOptions)`; mutation of the options struct
is modelled as a function on `NavOptions`. -/
def NavigateOption := NavOptions → NavOptions

/-- The wait predicate installed by `NavigateWaitEventLoadEventFired`:
succeeds exactly on `*page.EventLoadEventFired`, else `ErrNotMatch`. -/
def loadEventFiredWait : Event → Option GoError
  | .loadEventFired => none
  | _ => some .errNotMatch

/-- The wait predicate installed by `NavigateWaitEventFrameNavigated`. -/
def frameNavigatedWait : Event → Option GoError
  | .frameNavigated => none
  | _ => some .errNotMatch

/-- `NavigateWaitFunc` (src/nav.go). -/
def NavigateWaitFunc (w : Event → Option GoError) : NavigateOption :=
  fun opts => { opts with wait := some w }

/-- `NavigateNoWait` (src/nav.go): sets the wait function to nil. -/
def NavigateNoWait : NavigateOption :=
  fun opts => { opts with wait := none }

/-- `NavigateWaitEventLoadEventFired` (src/nav.go). -/
def NavigateWaitEventLoadEventFired : NavigateOption :=
  fun opts => { opts with wait := some loadEventFiredWait }

/-- `NavigateWaitEventFrameNavigated` (src/nav.go). -/
def NavigateWaitEventFrameNavigated : NavigateOption :=
  fun opts => { opts with wait := some frameNavigatedWait }

/-- The option-processing prefix of `waitNavEvent` (src/nav.go): start from a
zero `navOptions`, install the load-event-fired default, then apply the
caller's options in order.  Returns the effective wait function. -/
def effectiveWait (opts : List NavigateOption) : Option (Event → Option GoError) :=
  (opts.foldl (fun o f => f o) (NavigateWaitEventLoadEventFired { wait := none })).wait

/-- State of the completion signalling in `waitNavEvent`: whether the
listener scope `lctx` has been cancelled, and how many times `close(ch)` has
been executed (closing a Go channel twice panics, so `closes ≤ 1` is the
no-fault condition). -/
structure ListenState where
  cancelled : Bool
  closes : Nat
deriving DecidableEq, Repr

/-- The callback `waitNavEvent` registers with `ListenTarget` (src/nav.go):
on an event where the wait predicate returns nil it cancels `lctx` and closes
`ch`; on any other event it does nothing.  Note the callback carries no guard
of its own against running twice: each matching event it processes performs
another `close(ch)`. -/
def navCallback (wait : Event → Option GoError) (s : ListenState) (ev : Event) :
    ListenState :=
  if wait ev = none then { cancelled := true, closes := s.closes + 1 } else s

/-- The callback run on exactly the events that reach it: the subscription
layer is left out entirely, so `events` here is the sequence of events
actually delivered to the callback, whatever the subscription chose to
deliver.  The event-subscription contract only promises that cancelling the
listener scope eventually — not necessarily synchronously — stops further
deliveries, so a delivery after the first match is a permitted behaviour,
and this fold is the authority on what the callback itself guarantees. -/
def navCallbackRun (wait : Event → Option GoError) (s : ListenState)
    (events : List Event) : ListenState :=
  events.foldl (navCallback wait) s

/-- Modelled from the spec: `ListenTarget`, the event-subscription mechanism,
is not among the sources (src/nav.go only calls it).  The spec describes it
as a publish mechanism that invokes the callback once per event, sequentially
and in order, and grants the core only that cancelling the listener scope
eventually — not necessarily synchronously — stops further invocations.
This definition is the synchronous-stop refinement of that contract: the
listener scope is checked before every delivery, and no event is delivered
once it is cancelled.  It is strictly stronger than what the spec grants;
facts proved from it that depend only on whether at least one delivered
event matched also hold under the weaker eventual-stop contract, but its
at-most-one-close behaviour does not — for the callback alone, see
`navCallbackRun`. -/
def listenTargetRun (callback : ListenState → Event → ListenState) :
    ListenState → List Event → ListenState
  | s, [] => s
  | s, ev :: rest =>
    if s.cancelled then s else listenTargetRun callback (callback s ev) rest

/-- Observable outcome of one `waitNavEvent` call. -/
structure NavWaitRun where
  /-- whether a listener was registered with `ListenTarget` at all -/
  registered : Bool
  /-- how many times `close(ch)` ran -/
  closes : Nat
  /-- `some r`: the call returned with Go error `r` (`none` = nil);
  `none`: the final `select` blocks (no match and scope never cancelled) -/
  result : Option (Option GoError)
deriving DecidableEq, Repr

/-- `waitNavEvent` (src/nav.go): build the effective options; if the wait
function is nil return nil immediately without registering any listener;
otherwise register the matching callback, let the event stream deliver
`events`, and resolve the final `select` between `ch` and `ctx.Done()`.

`ctxDone` is whether the caller's scope ends during the wait and `cerr` its
`ctx.Err()`; `sel` resolves the nondeterministic `select` when both `ch` is
closed and the scope is done (`true` picks the `ch` branch). -/
def waitNavEvent (opts : List NavigateOption) (events : List Event)
    (ctxDone : Bool) (cerr : GoError) (sel : Bool) : NavWaitRun :=
  match effectiveWait opts with
  | none => { registered := false, closes := 0, result := some none }
  | some w =>
    let st := listenTargetRun (navCallback w) { cancelled := false, closes := 0 } events
    let res : Option (Option GoError) :=
      if 0 < st.closes then
        if ctxDone then (if sel then some none else some (some cerr)) else some none
      else
        if ctxDone then some (some cerr) else none
    { registered := true, closes := st.closes, result := res }

example : waitNavEvent [] [.otherEvent 0, .loadEventFired] false .ctxCanceled true
    = { registered := true, closes := 1, result := some none } := by decide

example : waitNavEvent [NavigateNoWait] [.loadEventFired] false .ctxCanceled true
    = { registered := false, closes := 0, result := some none } := by decide

example : waitNavEvent [] [.loadEventFired, .loadEventFired, .frameNavigated,
    .loadEventFired] false .ctxCanceled true
    = { registered := true, closes := 1, result := some none } := by decide

/-! ## src/wait.go: the WaitOneOf race coordinator -/

/-- The `select` at the end of `WaitOneOf`'s body (src/wait.go), as a function
of the first signal the coordinator observes.

`winner = some (k, e)` means the first rendezvous delivery over `retC` comes
from the executor of the action at 0-based position `k`, whose `action.Do`
returned `e`; `winner = none` means the parent scope's `ctx.Done()` fires
before any delivery, with `cerr = ctx.Err()`.  `waitIdx` is the out-slot
pointer (`none` = nil).  Returns the coordinator's returned error together
with the final pointee of the slot. -/
def waitOneOfBody (waitIdx : Option Int) (winner : Option (Nat × Option GoError))
    (cerr : GoError) : Option GoError × Option Int :=
  match winner with
  | none => (some cerr, waitIdx)
  | some (_, some e) => (some e, waitIdx)
  | some (k, none) => (none, waitIdx.map fun _ => (k : Int))

/-- `WaitOneOf` (src/wait.go): construction panics when called with zero
actions; otherwise it returns the action whose body races the given actions
and resolves per `waitOneOfBody`.  The actions themselves are opaque, so the
built value is the resolution function. -/
def WaitOneOf (waitIdx : Option Int) (actions : List α) :
    Constructed (Option (Nat × Option GoError) → GoError → Option GoError × Option Int) :=
  if actions.length = 0 then
    .panicked "actions cannot be empty"
  else
    .built (waitOneOfBody waitIdx)

/-! ## Out-slot constructors (src/nav.go, src/unnamed/part_000)

Each constructor takes out-slot pointers and returns an action that fills
them by calling the browser protocol; the protocol call is outside the core,
so the built action is opaque (`Unit`).  What the embedding keeps is the
construction-time nil check. -/

/-- `NavigationEntries` (src/nav.go): panics when `currentIndex` or `entries`
is nil. -/
def NavigationEntries (currentIndex : Option Int) (entries : Option (List Nat)) :
    Constructed Unit :=
  if currentIndex = none ∨ entries = none then
    .panicked "currentIndex and entries cannot be nil"
  else
    .built ()

/-- `GetCookies` (src/unnamed/part_000): panics when `cookies` is nil. -/
def GetCookies (cookies : Option (List Nat)) : Constructed Unit :=
  if cookies = none then .panicked "cookies cannot be nil" else .built ()

/-- `CaptureScreenshot` (src/nav.go): panics when `res` is nil. -/
def CaptureScreenshot (res : Option (List Nat)) : Constructed Unit :=
  if res = none then .panicked "res cannot be nil" else .built ()

/-- `Location` (src/nav.go): panics when `urlstr` is nil. -/
def Location (urlstr : Option String) : Constructed Unit :=
  if urlstr = none then .panicked "urlstr cannot be nil" else .built ()

/-- `Title` (src/nav.go): panics when `title` is nil. -/
def Title (title : Option String) : Constructed Unit :=
  if title = none then .panicked "title cannot be nil" else .built ()

/-! ## Concurrency structure of WaitOneOf's body (src/wait.go)

A small-step model of one `WaitOneOf` race: N executor goroutines, the
coordinator goroutine, the derived cancellable context, and the unbuffered
rendezvous channel `retC`.  Each goroutine's position in the code is a
control state; a transition is one scheduler step. -/

/-- Control state of one executor goroutine (the `go func(idx int)` body):
still inside `action.Do(ctx)`; blocked in the `select` trying to send on
`retC`; done after the send was received; or done after the `<-ctx.Done()`
branch abandoned the send. -/
inductive ExecSt where
  | running
  | sending
  | delivered
  | abandoned
deriving DecidableEq, Repr

/-- An executor goroutine has terminated (its `wg.Done()` has run). -/
def ExecSt.finished : ExecSt → Bool
  | .delivered => true
  | .abandoned => true
  | _ => false

/-- Control state of the coordinator: blocked in the final `select`; past the
`select`, about to run the deferred `cancel()`; past `cancel()`, inside the
deferred `wg.Wait()`; or returned from the whole call. -/
inductive CoordSt where
  | selecting
  | cancelling
  | joining
  | returned
deriving DecidableEq, Repr

/-- Global state of one race: per-executor control states (position `i` in
the list is the executor of action `i`), the coordinator's control state,
whether the derived context is cancelled, and whether the parent context is
done. -/
structure RaceState where
  execs : List ExecSt
  coord : CoordSt
  cancelled : Bool
  parentDone : Bool
deriving DecidableEq, Repr

/-- Initial state of a race over `n` actions: all executors launched and
running their actions, coordinator entering its `select`. -/
def initRace (n : Nat) : RaceState :=
  { execs := List.replicate n .running, coord := .selecting,
    cancelled := false, parentDone := false }

/-- One scheduler step of the race.

* `finish`: executor `i`'s `action.Do` returns; it enters the send `select`.
* `deliver`: an unbuffered-channel rendezvous: executor `i`'s send on `retC`
  pairs with the coordinator's receive, moving the coordinator past its
  `select`.
* `abandon`: executor `i` takes the `<-ctx.Done()` branch of its `select`,
  available once the derived context is cancelled, and terminates without
  sending.
* `parentCancel`: the parent scope ends; cancellation propagates to the
  derived child context.
* `ctxDone`: the coordinator's `select` takes its `<-ctx.Done()` branch.
* `runCancel`: the deferred `cancel()` runs as the coordinator unwinds.
* `finishJoin`: `wg.Wait()` returns once every executor has terminated, and
  the coordinator's call returns. -/
inductive RaceStep : RaceState → RaceState → Prop where
  | finish (s : RaceState) (i : Nat) (h : s.execs[i]? = some .running) :
      RaceStep s { s with execs := s.execs.set i .sending }
  | deliver (s : RaceState) (i : Nat) (h : s.execs[i]? = some .sending)
      (hc : s.coord = .selecting) :
      RaceStep s { s with execs := s.execs.set i .delivered, coord := .cancelling }
  | abandon (s : RaceState) (i : Nat) (h : s.execs[i]? = some .sending)
      (hc : s.cancelled = true) :
      RaceStep s { s with execs := s.execs.set i .abandoned }
  | parentCancel (s : RaceState) (h : s.parentDone = false) :
      RaceStep s { s with parentDone := true, cancelled := true }
  | ctxDone (s : RaceState) (h : s.coord = .selecting) (hc : s.cancelled = true) :
      RaceStep s { s with coord := .cancelling }
  | runCancel (s : RaceState) (h : s.coord = .cancelling) :
      RaceStep s { s with coord := .joining, cancelled := true }
  | finishJoin (s : RaceState) (h : s.coord = .joining)
      (hall : ∀ st ∈ s.execs, st.finished = true) :
      RaceStep s { s with coord := .returned }

/-- States reachable by the race over `n` actions. -/
def RaceReachable (n : Nat) (s : RaceState) : Prop :=
  Relation.ReflTransGen RaceStep (initRace n) s

/-- The steps a blocked sender's handoff needs: none of them requires another
action body to complete (`finish`) or the parent scope to end
(`parentCancel`); they are the executor's own two `select` branches plus the
coordinator's deferred `cancel()`. -/
inductive HandoffStep : RaceState → RaceState → Prop where
  | deliver (s : RaceState) (i : Nat) (h : s.execs[i]? = some .sending)
      (hc : s.coord = .selecting) :
      HandoffStep s { s with execs := s.execs.set i .delivered, coord := .cancelling }
  | abandon (s : RaceState) (i : Nat) (h : s.execs[i]? = some .sending)
      (hc : s.cancelled = true) :
      HandoffStep s { s with execs := s.execs.set i .abandoned }
  | runCancel (s : RaceState) (h : s.coord = .cancelling) :
      HandoffStep s { s with coord := .joining, cancelled := true }

/-- Every handoff step is a scheduler step of the race. -/
theorem handoffStep_raceStep {s t : RaceState} (h : HandoffStep s t) : RaceStep s t := by
  cases h with
  | deliver i h hc => exact RaceStep.deliver s i h hc
  | abandon i h hc => exact RaceStep.abandon s i h hc
  | runCancel h => exact RaceStep.runCancel s h

/-- Invariant of reachable race states: once the coordinator is joining or
returned the derived context is cancelled, and once it has returned every
executor has terminated. -/
def RaceInv (s : RaceState) : Prop :=
  ((s.coord = .joining ∨ s.coord = .returned) → s.cancelled = true) ∧
  (s.coord = .returned → ∀ st ∈ s.execs, st.finished = true)

theorem raceInv_init (n : Nat) : RaceInv (initRace n) := by
  constructor
  · intro h
    rcases h with h | h <;> simp [initRace] at h
  · intro h
    simp [initRace] at h

theorem raceInv_step {s t : RaceState} (hst : RaceStep s t) (hs : RaceInv s) :
    RaceInv t := by
  obtain ⟨h1, h2⟩ := hs
  cases hst with
  | finish i h =>
    refine ⟨h1, ?_⟩
    intro hret
    exact absurd (h2 hret .running (List.mem_iff_getElem?.mpr ⟨i, h⟩)) (by simp [ExecSt.finished])
  | deliver i h hc =>
    exact ⟨by rintro (h' | h') <;> simp at h', by intro h'; simp at h'⟩
  | abandon i h hc =>
    refine ⟨h1, ?_⟩
    intro hret st hmem
    rcases List.mem_or_eq_of_mem_set hmem with hmem' | rfl
    · exact h2 hret st hmem'
    · rfl
  | parentCancel h =>
    exact ⟨fun _ => rfl, h2⟩
  | ctxDone h hc =>
    exact ⟨by rintro (h' | h') <;> simp at h', by intro h'; simp at h'⟩
  | runCancel h =>
    exact ⟨fun _ => rfl, by intro h'; simp at h'⟩
  | finishJoin h hall =>
    exact ⟨fun _ => h1 (Or.inl h), fun _ => hall⟩

theorem raceInv_reachable {n : Nat} {s : RaceState} (h : RaceReachable n s) :
    RaceInv s := by
  induction h with
  | refl => exact raceInv_init n
  | tail _ hstep ih => exact raceInv_step hstep ih

/-- From any reachable state in which executor `i` is blocked trying to send,
a finite sequence of handoff steps terminates that executor — it either
delivers its outcome or abandons the send — so the send never blocks
indefinitely. -/
theorem sending_executor_terminates {n : Nat} {s : RaceState}
    (hreach : RaceReachable n s) (i : Nat) (hi : s.execs[i]? = some .sending) :
    ∃ t, Relation.ReflTransGen HandoffStep s t ∧
      (t.execs[i]? = some .delivered ∨ t.execs[i]? = some .abandoned) := by
  have hinv := raceInv_reachable hreach
  have hilt : i < s.execs.length := by
    rcases List.getElem?_eq_some.mp hi with ⟨hl, _⟩
    exact hl
  by_cases hc : s.cancelled = true
  · refine ⟨_, Relation.ReflTransGen.single (HandoffStep.abandon s i hi hc), Or.inr ?_⟩
    exact List.getElem?_set_eq_of_lt _ hilt
  · cases hcoord : s.coord with
    | selecting =>
      refine ⟨_, Relation.ReflTransGen.single (HandoffStep.deliver s i hi hcoord), Or.inl ?_⟩
      exact List.getElem?_set_eq_of_lt _ hilt
    | cancelling =>
      refine ⟨_, Relation.ReflTransGen.head (HandoffStep.runCancel s hcoord)
        (Relation.ReflTransGen.single
          (HandoffStep.abandon { s with coord := .joining, cancelled := true } i hi rfl)),
        Or.inr ?_⟩
      exact List.getElem?_set_eq_of_lt _ hilt
    | joining => exact absurd (hinv.1 (Or.inl hcoord)) hc
    | returned => exact absurd (hinv.1 (Or.inr hcoord)) hc

/-! ## Behaviour lemmas for the retry and periodic loops -/

/-- With the scope never cancelled, a predicate that continues for `k`
invocations from `i` on and then stops makes the loop return the stopping
outcome after exactly `k + 1` further invocations. -/
theorem waitUntilGo_converges (cerr : GoError) (f : Nat → Option GoError)
    (k : Nat) : ∀ i, (∀ j, j < k → f (i + j) = some .errContinueWait) →
      f (i + k) ≠ some .errContinueWait →
      waitUntilGo (fun _ => false) cerr f (k + 1) i = some (f (i + k), i + k + 1) := by
  induction k with
  | zero =>
    intro i _ hk
    simp only [Nat.add_zero] at hk ⊢
    simp [waitUntilGo, hk]
  | succ k ih =>
    intro i hj hk
    have h0 : f i = some .errContinueWait := by simpa using hj 0 (Nat.succ_pos k)
    have e1 : i + (k + 1) = i + 1 + k := by omega
    rw [e1] at hk ⊢
    have step : waitUntilGo (fun _ => false) cerr f (k + 1 + 1) i
        = waitUntilGo (fun _ => false) cerr f (k + 1) (i + 1) := by
      simp [waitUntilGo, h0]
    rw [step]
    exact ih (i + 1) (fun j hjk => by
      have := hj (j + 1) (Nat.succ_lt_succ hjk)
      have e2 : i + (j + 1) = i + 1 + j := by omega
      rwa [e2] at this) hk

/-- Whatever the loop returns, it is never the continue sentinel, as long as
the cancellation error of the scope is not that sentinel (in Go, `ctx.Err()`
never is). -/
theorem waitUntilGo_ne_continue (c : Nat → Bool) (cerr : GoError)
    (hc : cerr ≠ .errContinueWait) (f : Nat → Option GoError) :
    ∀ (fuel i : Nat) (ret : Option GoError) (calls : Nat),
      waitUntilGo c cerr f fuel i = some (ret, calls) →
      ret ≠ some .errContinueWait := by
  intro fuel
  induction fuel with
  | zero => intro i ret calls h; simp [waitUntilGo] at h
  | succ fuel ih =>
    intro i ret calls h
    simp only [waitUntilGo] at h
    split at h
    · obtain ⟨h1, _⟩ := Prod.mk.injEq .. ▸ Option.some.inj h
      intro hcon
      exact hc (Option.some.inj (h1 ▸ hcon))
    · split at h
      · exact ih (i + 1) ret calls h
      · next hne =>
        obtain ⟨h1, _⟩ := Prod.mk.injEq .. ▸ Option.some.inj h
        exact h1 ▸ hne

/-- If the scope is already cancelled when an iteration of the retry loop
begins, the loop returns the cancellation error at once, without invoking the
predicate again: the invocation count stays at `i`. -/
theorem waitUntilGo_cancelled_now (c : Nat → Bool) (cerr : GoError)
    (f : Nat → Option GoError) (fuel i : Nat) (h : c i = true) :
    waitUntilGo c cerr f (fuel + 1) i = some (some cerr, i) := by
  simp [waitUntilGo, h]

/-- A perpetually-continuing predicate cannot outlive cancellation: if the
scope first becomes cancelled at iteration `i + k`, the loop returns the
cancellation error after exactly `k` more predicate invocations. -/
theorem waitUntilGo_cancelled_mid (c : Nat → Bool) (cerr : GoError)
    (f : Nat → Option GoError) (hf : ∀ j, f j = some .errContinueWait)
    (k : Nat) : ∀ i, c (i + k) = true → (∀ j, j < k → c (i + j) = false) →
      waitUntilGo c cerr f (k + 1) i = some (some cerr, i + k) := by
  induction k with
  | zero =>
    intro i hk _
    simp only [Nat.add_zero] at hk ⊢
    simp [waitUntilGo, hk]
  | succ k ih =>
    intro i hk hlt
    have h0 : c i = false := by simpa using hlt 0 (Nat.succ_pos k)
    have e1 : i + (k + 1) = i + 1 + k := by omega
    rw [e1] at hk ⊢
    have step : waitUntilGo c cerr f (k + 1 + 1) i
        = waitUntilGo c cerr f (k + 1) (i + 1) := by
      simp [waitUntilGo, h0, hf i]
    rw [step]
    exact ih (i + 1) hk (fun j hjk => by
      have := hlt (j + 1) (Nat.succ_lt_succ hjk)
      have e2 : i + (j + 1) = i + 1 + j := by omega
      rwa [e2] at this)

/-- With the scope never cancelled, an action that succeeds for `k`
invocations from `i` on and then fails makes the periodic loop return that
failure after exactly `k + 1` further invocations. -/
theorem intervalRunGo_fails (interval : Nat) (cerr : GoError)
    (a : Nat → Option GoError) (e : GoError) (k : Nat) :
    ∀ i, (∀ j, j < k → a (i + j) = none) → a (i + k) = some e →
      intervalRunGo interval (fun _ => false) cerr a (k + 1) i
        = some (some e, i + k + 1) := by
  induction k with
  | zero =>
    intro i _ hk
    simp only [Nat.add_zero] at hk ⊢
    simp [intervalRunGo, hk]
  | succ k ih =>
    intro i hj hk
    have h0 : a i = none := by simpa using hj 0 (Nat.succ_pos k)
    have e1 : i + (k + 1) = i + 1 + k := by omega
    rw [e1] at hk ⊢
    have step : intervalRunGo interval (fun _ => false) cerr a (k + 1 + 1) i
        = intervalRunGo interval (fun _ => false) cerr a (k + 1) (i + 1) := by
      simp [intervalRunGo, h0]
    rw [step]
    exact ih (i + 1) (fun j hjk => by
      have := hj (j + 1) (Nat.succ_lt_succ hjk)
      have e2 : i + (j + 1) = i + 1 + j := by omega
      rwa [e2] at this) hk

/-- The periodic loop never returns a nil error of its own: every terminating
run ends in either the cancellation error or an action failure. -/
theorem intervalRunGo_ne_success (interval : Nat) (c : Nat → Bool)
    (cerr : GoError) (a : Nat → Option GoError) :
    ∀ (fuel i : Nat) (ret : Option GoError) (calls : Nat),
      intervalRunGo interval c cerr a fuel i = some (ret, calls) → ret ≠ none := by
  intro fuel
  induction fuel with
  | zero => intro i ret calls h; simp [intervalRunGo] at h
  | succ fuel ih =>
    intro i ret calls h
    simp only [intervalRunGo] at h
    split at h
    · obtain ⟨h1, _⟩ := Prod.mk.injEq .. ▸ Option.some.inj h
      exact h1 ▸ (by simp)
    · split at h
      · next e heq =>
        obtain ⟨h1, _⟩ := Prod.mk.injEq .. ▸ Option.some.inj h
        exact h1 ▸ (by simp)
      · exact ih (i + 1) ret calls h

/-- Once a matching event has cancelled the listener scope, delivery stops:
no later event, matching or not, changes the listener state again. -/
theorem listenTargetRun_cancelled (cb : ListenState → Event → ListenState) :
    ∀ (events : List Event) (s : ListenState), s.cancelled = true →
      listenTargetRun cb s events = s := by
  intro events
  cases events with
  | nil => intro s _; rfl
  | cons ev rest => intro s h; simp [listenTargetRun, h]

/-- Across any delivered event sequence, the completion channel is closed at
most once more than it already was, because the first close also cancels the
listener scope and thereby stops all further deliveries. -/
theorem listenTargetRun_closes_le (w : Event → Option GoError) :
    ∀ (events : List Event) (s : ListenState),
      (listenTargetRun (navCallback w) s events).closes
        ≤ s.closes + (if s.cancelled then 0 else 1) := by
  intro events
  induction events with
  | nil =>
    intro s
    simp [listenTargetRun]
  | cons ev rest ih =>
    intro s
    by_cases hc : s.cancelled
    · simp [listenTargetRun, hc]
    · simp only [listenTargetRun, hc, if_false, Bool.false_eq_true]
      by_cases hw : w ev = none
      · have h2 := listenTargetRun_cancelled (navCallback w) rest
          { cancelled := true, closes := s.closes + 1 } rfl
        simp [navCallback, hw, h2]
      · have := ih s
        simp only [navCallback, hw, if_neg]
        simpa [hc] using this

/-- An always-succeeding action keeps the periodic loop alive until the scope
is cancelled, at which point the cancellation error is returned; `i + k`
is the iteration at which cancellation is first observed. -/
theorem intervalRunGo_cancelled (interval : Nat) (c : Nat → Bool)
    (cerr : GoError) (a : Nat → Option GoError) (ha : ∀ j, a j = none)
    (k : Nat) : ∀ i, c (i + k) = true → (∀ j, j < k → c (i + j) = false) →
      intervalRunGo interval c cerr a (k + 1) i = some (some cerr, i + k) := by
  induction k with
  | zero =>
    intro i hk _
    simp only [Nat.add_zero] at hk ⊢
    simp [intervalRunGo, hk]
  | succ k ih =>
    intro i hk hlt
    have h0 : c i = false := by simpa using hlt 0 (Nat.succ_pos k)
    have e1 : i + (k + 1) = i + 1 + k := by omega
    rw [e1] at hk ⊢
    have step : intervalRunGo interval c cerr a (k + 1 + 1) i
        = intervalRunGo interval c cerr a (k + 1) (i + 1) := by
      simp [intervalRunGo, h0, ha i]
    rw [step]
    exact ih (i + 1) hk (fun j hjk => by
      have := hlt (j + 1) (Nat.succ_lt_succ hjk)
      have e2 : i + (j + 1) = i + 1 + j := by omega
      rwa [e2] at this)

/-! ## The claims -/

/-- C3: if the predicate returns `ErrContinueWait` on its first `C`
invocations and a result `r` distinct from the continue marker on invocation
`C + 1`, the `WaitUntil` loop invokes the predicate exactly `C + 1` times,
one invocation per 50ms tick, and returns `r`; and for any predicate, the
value returned is never the continue marker itself. -/
theorem waitUntil_retry_count (cerr : GoError) (f : Nat → Option GoError)
    (C : Nat) (r : Option GoError)
    (hcont : ∀ i, i < C → f i = some .errContinueWait)
    (hC : f C = r) (hr : r ≠ some .errContinueWait) :
    waitUntilTickMillis = 50 ∧
    WaitUntil (fun _ => false) cerr f (C + 1) = some (r, C + 1) ∧
    ∀ (c : Nat → Bool) (cerr' : GoError) (g : Nat → Option GoError)
      (fuel : Nat) (ret : Option GoError) (calls : Nat),
      cerr'.isCtxErr = true →
      WaitUntil c cerr' g fuel = some (ret, calls) →
      ret ≠ some .errContinueWait := by
  refine ⟨rfl, ?_, ?_⟩
  · have := waitUntilGo_converges cerr f C 0
      (fun j hj => by simpa using hcont j hj)
      (by simpa [hC] using hr)
    simpa [WaitUntil, hC] using this
  · intro c cerr' g fuel ret calls hctx h
    have hne : cerr' ≠ .errContinueWait := by
      cases cerr' <;> simp_all [GoError.isCtxErr]
    exact waitUntilGo_ne_continue c cerr' hne g fuel 0 ret calls h

/-- Witness for C3 at a concrete input: a predicate that continues twice and
then succeeds is invoked exactly three times and the loop returns nil. -/
theorem waitUntil_retry_count_witness :
    (∀ i, i < 2 → (if i < 2 then some GoError.errContinueWait else none)
        = some GoError.errContinueWait) ∧
    WaitUntil (fun _ => false) .ctxCanceled
      (fun i => if i < 2 then some .errContinueWait else none) 3 = some (none, 3) := by
  refine ⟨by decide, ?_⟩
  exact (waitUntil_retry_count .ctxCanceled
    (fun i => if i < 2 then some .errContinueWait else none) 2 none
    (by decide) (by decide) (by decide)).2.1

/-- C7: the retry loop checks scope cancellation before every predicate
invocation: at any iteration that begins with the scope already cancelled,
the loop returns the cancellation error without invoking the predicate
again; hence a perpetually-continuing predicate cannot keep the loop alive
past the iteration at which cancellation is first observed. -/
theorem waitUntil_cancellation_each_tick (c : Nat → Bool) (cerr : GoError)
    (f : Nat → Option GoError) (N : Nat)
    (hf : ∀ j, f j = some .errContinueWait)
    (hN : c N = true) (hbefore : ∀ j, j < N → c j = false) :
    WaitUntil c cerr f (N + 1) = some (some cerr, N) ∧
    ∀ (c' : Nat → Bool) (g : Nat → Option GoError) (fuel i : Nat),
      c' i = true → waitUntilGo c' cerr g (fuel + 1) i = some (some cerr, i) := by
  constructor
  · have := waitUntilGo_cancelled_mid c cerr f hf N 0 (by simpa using hN)
      (fun j hj => by simpa using hbefore j hj)
    simpa [WaitUntil] using this
  · intro c' g fuel i h
    exact waitUntilGo_cancelled_now c' cerr g fuel i h

/-- Witness for C7: cancellation first observed at the second iteration stops
a perpetually-continuing predicate after one invocation. -/
theorem waitUntil_cancellation_each_tick_witness :
    ((fun i => decide (1 ≤ i)) 1 = true) ∧
    WaitUntil (fun i => decide (1 ≤ i)) .ctxCanceled
      (fun _ => some .errContinueWait) 2 = some (some .ctxCanceled, 1) := by
  refine ⟨by decide, ?_⟩
  exact (waitUntil_cancellation_each_tick (fun i => decide (1 ≤ i)) .ctxCanceled
    (fun _ => some .errContinueWait) 1 (fun _ => rfl) (by decide) (by decide)).1

/-- C4: an action that succeeds on its first `K - 1` invocations and fails
with `e` on invocation `K` makes the `IntervalRun` loop invoke it exactly `K`
times and return `e`; an action that never fails leaves the loop running
until the scope is cancelled, at which point the cancellation error is
returned; and the loop never terminates with a success result of its own. -/
theorem intervalRun_failure_propagation (interval : Nat) (cerr : GoError)
    (a : Nat → Option GoError) (K : Nat) (e : GoError) (hK : 1 ≤ K)
    (hok : ∀ j, j < K - 1 → a j = none) (hfail : a (K - 1) = some e) :
    IntervalRun interval (fun _ => false) cerr a K = some (some e, K) ∧
    (∀ (c : Nat → Bool) (b : Nat → Option GoError) (N : Nat),
      (∀ j, b j = none) → c N = true → (∀ j, j < N → c j = false) →
      IntervalRun interval c cerr b (N + 1) = some (some cerr, N)) ∧
    ∀ (interval' : Nat) (c : Nat → Bool) (cerr' : GoError)
      (b : Nat → Option GoError) (fuel calls : Nat),
      intervalRunGo interval' c cerr' b fuel 0 ≠ some (none, calls) := by
  refine ⟨?_, ?_, ?_⟩
  · have := intervalRunGo_fails interval cerr a e (K - 1) 0
      (fun j hj => by simpa using hok j hj) (by simpa using hfail)
    have hfuel : K - 1 + 1 = K := by omega
    simpa [IntervalRun, hfuel] using this
  · intro c b N hb hN hlt
    have := intervalRunGo_cancelled interval c cerr b hb N 0 (by simpa using hN)
      (fun j hj => by simpa using hlt j hj)
    simpa [IntervalRun] using this
  · intro interval' c cerr' b fuel calls h
    exact intervalRunGo_ne_success interval' c cerr' b fuel 0 none calls h rfl

/-- Witness for C4: an action failing on its third invocation stops the loop
after exactly three invocations with that failure. -/
theorem intervalRun_failure_propagation_witness :
    (1 ≤ 3) ∧
    IntervalRun 10 (fun _ => false) .ctxCanceled
      (fun j => if j < 2 then none else some (.other 7)) 3
      = some (some (.other 7), 3) := by
  refine ⟨by decide, ?_⟩
  exact (intervalRun_failure_propagation 10 .ctxCanceled
    (fun j => if j < 2 then none else some (.other 7)) 3 (.other 7)
    (by decide) (by decide) (by decide)).1

/-- C2: the action built by `WaitOneOf` over a non-empty action list resolves
the race as follows: a first delivery that is a failure is returned verbatim
with the out slot unchanged; a first delivery that is a success from position
`k` returns nil and writes `k` to the out slot when it is non-nil (a nil slot
discards `k`); parent-scope cancellation before any delivery returns the
cancellation error with the slot unchanged.  The slot is written only on
success. -/
theorem waitOneOf_resolution {α : Type} (waitIdx : Option Int) (actions : List α)
    (h : actions ≠ []) (k : Nat) (hk : k < actions.length) (e cerr : GoError) :
    ∃ body, WaitOneOf waitIdx actions = .built body ∧
      body (some (k, some e)) cerr = (some e, waitIdx) ∧
      body (some (k, none)) cerr = (none, waitIdx.map fun _ => (k : Int)) ∧
      (waitIdx = none → body (some (k, none)) cerr = (none, none)) ∧
      body none cerr = (some cerr, waitIdx) := by
  refine ⟨waitOneOfBody waitIdx, ?_, rfl, rfl, ?_, rfl⟩
  · have hlen : actions.length ≠ 0 := by
      intro h0
      exact h (List.length_eq_zero.mp h0)
    simp [WaitOneOf, hlen]
  · intro hnil
    simp [waitOneOfBody, hnil]

/-- Witness for C2 at a concrete race: one action, slot initially holding 5;
failure keeps the slot, success writes index 0, cancellation keeps the slot. -/
theorem waitOneOf_resolution_witness :
    ([()] ≠ ([] : List Unit)) ∧ 0 < [()].length ∧
    ∃ body, WaitOneOf (some 5) [()] = .built body ∧
      body (some (0, some (.other 3))) .ctxCanceled = (some (.other 3), some 5) ∧
      body (some (0, none)) .ctxCanceled = (none, some 0) ∧
      body none .ctxCanceled = (some .ctxCanceled, some 5) := by
  refine ⟨by simp, by simp, ?_⟩
  obtain ⟨body, h1, h2, h3, _, h5⟩ :=
    waitOneOf_resolution (some 5) [()] (by simp) 0 (by simp) (.other 3) .ctxCanceled
  exact ⟨body, h1, h2, by simpa using h3, h5⟩

/-- C6: `WaitOneOf` panics at construction exactly when invoked with zero
actions; with one or more actions construction never panics. -/
theorem waitOneOf_empty_panics {α : Type} (waitIdx : Option Int)
    (actions : List α) :
    (WaitOneOf waitIdx actions).isPanic = true ↔ actions = [] := by
  constructor
  · intro h
    by_cases hlen : actions.length = 0
    · exact List.length_eq_zero.mp hlen
    · simp [WaitOneOf, hlen, Constructed.isPanic] at h
  · intro h
    subst h
    rfl

/-- Witness for C6: the empty race panics, a singleton race builds. -/
theorem waitOneOf_empty_panics_witness :
    (WaitOneOf (α := Unit) none []).isPanic = true ∧
    (WaitOneOf (some 0) [()]).isPanic = false := by
  constructor
  · exact (waitOneOf_empty_panics none []).mpr rfl
  · have h := waitOneOf_empty_panics (some 0) [()]
    have : ¬(WaitOneOf (some 0) [()]).isPanic = true := by
      intro hp
      exact absurd (h.mp hp) (by simp)
    exact Bool.not_eq_true _ ▸ this

/-- C9: the constructors with a required out slot — `NavigationEntries`,
`GetCookies`, `CaptureScreenshot`, `Location`, `Title` — panic at
construction when given a nil out pointer, and never panic on non-nil
pointers. -/
theorem out_slot_constructors_nil_panic :
    (∀ e, (NavigationEntries none e).isPanic = true) ∧
    (∀ c, (NavigationEntries c none).isPanic = true) ∧
    (∀ c e, (NavigationEntries (some c) (some e)).isPanic = false) ∧
    (GetCookies none).isPanic = true ∧
    (∀ x, (GetCookies (some x)).isPanic = false) ∧
    (CaptureScreenshot none).isPanic = true ∧
    (∀ x, (CaptureScreenshot (some x)).isPanic = false) ∧
    (Location none).isPanic = true ∧
    (∀ x, (Location (some x)).isPanic = false) ∧
    (Title none).isPanic = true ∧
    (∀ x, (Title (some x)).isPanic = false) := by
  refine ⟨fun e => rfl, fun c => ?_, fun c e => rfl, rfl, fun x => rfl, rfl,
    fun x => rfl, rfl, fun x => rfl, rfl, fun x => rfl⟩
  cases c <;> rfl

/-- C10: with an empty option list the effective wait predicate of
`waitNavEvent` is the load-event-fired matcher, succeeding exactly on
`page.EventLoadEventFired` and returning `ErrNotMatch` on every other event;
options are applied in order after that default, so the last option supplied
determines the predicate, and a trailing `NavigateNoWait` always yields the
no-wait behaviour. -/
theorem navWait_default_predicate_and_option_order :
    effectiveWait [] = some loadEventFiredWait ∧
    (∀ ev, loadEventFiredWait ev = none ↔ ev = .loadEventFired) ∧
    (∀ ev, ev ≠ .loadEventFired → loadEventFiredWait ev = some .errNotMatch) ∧
    (∀ opts w, effectiveWait (opts ++ [NavigateWaitFunc w]) = some w) ∧
    (∀ opts, effectiveWait (opts ++ [NavigateNoWait]) = none) ∧
    (∀ opts, effectiveWait (opts ++ [NavigateWaitEventFrameNavigated])
      = some frameNavigatedWait) := by
  refine ⟨rfl, ?_, ?_, ?_, ?_, ?_⟩
  · intro ev
    cases ev <;> simp [loadEventFiredWait]
  · intro ev h
    cases ev <;> simp_all [loadEventFiredWait]
  · intro opts w
    simp [effectiveWait, List.foldl_append, NavigateWaitFunc]
  · intro opts
    simp [effectiveWait, List.foldl_append, NavigateNoWait]
  · intro opts
    simp [effectiveWait, List.foldl_append, NavigateWaitEventFrameNavigated]

/-- Witness for C10: a non-load event is rejected by the default predicate,
and a trailing `NavigateNoWait` after an explicit load-event option yields
no wait. -/
theorem navWait_default_predicate_and_option_order_witness :
    (Event.frameNavigated ≠ Event.loadEventFired) ∧
    loadEventFiredWait .frameNavigated = some .errNotMatch ∧
    effectiveWait [NavigateWaitEventLoadEventFired, NavigateNoWait] = none := by
  refine ⟨by simp, ?_, ?_⟩
  · exact navWait_default_predicate_and_option_order.2.2.1 .frameNavigated (by simp)
  · exact navWait_default_predicate_and_option_order.2.2.2.2.1
      [NavigateWaitEventLoadEventFired]

/-- C1: the claim asserts that over every sequence of events delivered to
the callback registered by `waitNavEvent`, completion is signalled at most
once even when two or more events satisfy the predicate, and processing the
later matches never faults.  The code violates this: the callback carries no
once-guard, so each delivered matching event runs `close(ch)` again, and the
subscription contract only promises that cancellation eventually — not
synchronously — stops deliveries, so a second match can still reach the
callback.  Evaluating the callback at the failing input — the default
load-event predicate with two matching events delivered in quick succession
— closes the completion channel twice, the double close of a Go channel that
panics at run time. -/
theorem navCallback_double_close :
    (navCallbackRun loadEventFiredWait { cancelled := false, closes := 0 }
        [.loadEventFired, .loadEventFired]).closes = 2 ∧
    ¬ (navCallbackRun loadEventFiredWait { cancelled := false, closes := 0 }
        [.loadEventFired, .loadEventFired]).closes ≤ 1 := by
  decide

/-- C5: `waitNavEvent` resolves to nil on a predicate match, to nil at once
(with no listener registered) when the effective wait function is nil as
with `NavigateNoWait`, or to the cancellation error of the scope; any value
it returns is nil or that cancellation error, and it never returns the
`ErrNotMatch` sentinel. -/
theorem navWait_result_taxonomy (opts : List NavigateOption)
    (events : List Event) (ctxDone : Bool) (cerr : GoError) (sel : Bool)
    (hcerr : cerr.isCtxErr = true) :
    (∀ r, (waitNavEvent opts events ctxDone cerr sel).result = some r →
      r = none ∨ r = some cerr) ∧
    (waitNavEvent opts events ctxDone cerr sel).result
      ≠ some (some .errNotMatch) ∧
    (effectiveWait opts = none →
      (waitNavEvent opts events ctxDone cerr sel).registered = false ∧
      (waitNavEvent opts events ctxDone cerr sel).result = some none) := by
  have hne : cerr ≠ .errNotMatch := by
    cases cerr <;> simp_all [GoError.isCtxErr]
  have hmain : ∀ r, (waitNavEvent opts events ctxDone cerr sel).result = some r →
      r = none ∨ r = some cerr := by
    cases heff : effectiveWait opts with
    | none =>
      simp only [waitNavEvent, heff]
      intro r hr
      exact Or.inl (Option.some.inj hr).symm
    | some w =>
      simp only [waitNavEvent, heff]
      intro r hr
      repeat' split at hr
      all_goals first
        | exact Or.inl (Option.some.inj hr).symm
        | exact Or.inr (Option.some.inj hr).symm
        | exact absurd hr (by simp)
  refine ⟨hmain, ?_, ?_⟩
  · intro hbad
    rcases hmain (some .errNotMatch) hbad with h | h
    · exact Option.noConfusion h
    · exact hne (Option.some.inj h).symm
  · intro h
    simp [waitNavEvent, h]

/-- Witness for C5: a `NavigateNoWait` waiter resolves to nil at once without
registering a listener, and its result is not the not-matched sentinel. -/
theorem navWait_result_taxonomy_witness :
    GoError.isCtxErr .ctxCanceled = true ∧
    (waitNavEvent [NavigateNoWait] [.loadEventFired] false .ctxCanceled true).registered
      = false ∧
    (waitNavEvent [NavigateNoWait] [.loadEventFired] false .ctxCanceled true).result
      = some none ∧
    (waitNavEvent [NavigateNoWait] [.loadEventFired] false .ctxCanceled true).result
      ≠ some (some .errNotMatch) := by
  have h := navWait_result_taxonomy [NavigateNoWait] [.loadEventFired] false
    .ctxCanceled true (by decide)
  exact ⟨by decide, (h.2.2 rfl).1, (h.2.2 rfl).2, h.2.1⟩

/-- A reachable race state in which the single executor has finished its
action and is blocked trying to send its outcome. -/
def raceWitnessState : RaceState :=
  { execs := [.sending], coord := .selecting, cancelled := false,
    parentDone := false }

/-- C8: in every reachable state of a `WaitOneOf` race, once the coordinator
has returned every executor has terminated (the coordinator joins all `N`
executors before its call returns), and an executor blocked on the
rendezvous send always completes — delivering or abandoning — through
handoff steps alone, which need no other action to finish and no parent
cancellation, so no executor can stay blocked on the send forever. -/
theorem race_executors_join_and_never_block (n i : Nat) (s : RaceState)
    (hreach : RaceReachable n s) :
    (s.coord = .returned → ∀ st ∈ s.execs, st.finished = true) ∧
    (s.execs[i]? = some .sending →
      ∃ t, Relation.ReflTransGen HandoffStep s t ∧
        (t.execs[i]? = some .delivered ∨ t.execs[i]? = some .abandoned)) :=
  ⟨(raceInv_reachable hreach).2, fun hi => sending_executor_terminates hreach i hi⟩

/-- Witness for C8: in a one-action race, the state where the executor is
blocked sending is reachable, and from it the executor provably completes
its handoff. -/
theorem race_executors_join_and_never_block_witness :
    RaceReachable 1 raceWitnessState ∧
    ((raceWitnessState.coord = .returned →
        ∀ st ∈ raceWitnessState.execs, st.finished = true) ∧
      (raceWitnessState.execs[0]? = some .sending →
        ∃ t, Relation.ReflTransGen HandoffStep raceWitnessState t ∧
          (t.execs[0]? = some .delivered ∨ t.execs[0]? = some .abandoned))) := by
  have hreach : RaceReachable 1 raceWitnessState :=
    Relation.ReflTransGen.single (RaceStep.finish (initRace 1) 0 rfl)
  exact ⟨hreach, race_executors_join_and_never_block 1 0 raceWitnessState hreach⟩
